import Mathlib

/-!
# Verification of the `alta2012-usim` tagging wrapper

A shallow embedding of `genia.py` (the GENIA tagger wrapper and its
character-offset reconstruction loop) and of the parts of `usim.py`
(`Sentence.pos_tags`, `Lemma.__hash__`, `SPair.__init__`) that the claims
concern.  Python strings are modelled as `List Char`; the external tagger
process is modelled by the list of response lines it writes to stdout
(readline at end-of-stream returns the empty string); fallible Python code
is modelled with `Except PyErr`.
-/

set_option autoImplicit false

/-- The Python exception classes that the modelled code can actually raise. -/
inductive PyErr where
  | attributeError
  | valueError
  | keyError
  deriving DecidableEq, Repr

/-- The double-quote character `"` (written via its code point to keep
character literals simple). -/
def dquote : Char := Char.ofNat 34

/-- The single-quote character. -/
def squote : Char := Char.ofNat 39

/-- The backtick character. -/
def bquote : Char := Char.ofNat 96

/-- Python whitespace, as stripped by `str.rstrip()` with no argument
(space, tab, newline, carriage return, vertical tab, form feed). -/
def isPySpace (c : Char) : Bool :=
  c = ' ' || c = '\t' || c = '\n' || c = '\r' || c = Char.ofNat 11 || c = Char.ofNat 12

/-- Embedding of Python `line.rstrip()`: drop trailing whitespace. -/
def rstrip (l : List Char) : List Char :=
  (l.reverse.dropWhile isPySpace).reverse

/-- Embedding of Python `s.split(sep)` for a one-character separator:
split on every occurrence, keeping empty fields; `"".split(sep) = [""]`. -/
def splitOn1 (sep : Char) : List Char → List (List Char)
  | [] => [[]]
  | c :: rest =>
    if c = sep then [] :: splitOn1 sep rest
    else
      match splitOn1 sep rest with
      | [] => [[c]]
      | f :: fs => (c :: f) :: fs

/-- `line.split('\t')` as used at genia.py line 43. -/
def splitTab (l : List Char) : List (List Char) := splitOn1 '\t' l

/-- genia.py line 19, `RE_NEWLINE = re.compile(r'\n')`, applied as
`RE_NEWLINE.sub('', text)`: delete every `'\n'` character. -/
def RE_NEWLINE_sub : List Char → List Char
  | [] => []
  | c :: rest => if c = '\n' then RE_NEWLINE_sub rest else c :: RE_NEWLINE_sub rest

/-- genia.py line 35: `proc_text = RE_NEWLINE.sub('', text)`. -/
def procText (text : List Char) : List Char := RE_NEWLINE_sub text

/-- genia.py line 37: the string written to the tagger's stdin,
`proc_text + '\n'`. -/
def sentText (text : List Char) : List Char := procText text ++ ['\n']

/-- Python slicing `t[s:e]` for non-negative bounds. -/
def pySlice (t : List Char) (s e : Nat) : List Char := (t.take e).drop s

/-- Embedding of `re.search(re.escape(word), window)`: because the pattern is
escaped, this is a literal substring search; `findSub tok w` is the index of
the first occurrence of `tok` in `w`, or `none` (in Python, `re.search`
returning `None`). -/
def findSub (tok : List Char) : List Char → Option Nat
  | [] => if tok = [] then some 0 else none
  | c :: rest =>
    if tok = (c :: rest).take tok.length then some 0
    else (findSub tok rest).map (· + 1)

/-- genia.py lines 51-53: search for `w` in `proc_text[range_start:]` and
translate the relative match span to absolute offsets
(`range_start + start`, `range_start + end`); the match length is
`w.length` because the pattern is an escaped literal. -/
def findOffsets (proc : List Char) (w : List Char) (range_start : Nat) :
    Option (Nat × Nat) :=
  match findSub w (proc.drop range_start) with
  | none => none
  | some s => some (range_start + s, range_start + s + w.length)

/-- genia.py line 22: `TAGS = ['word', 'base', 'POStag', 'chunktag', 'NEtag']`. -/
def TAGS : List String := ["word", "base", "POStag", "chunktag", "NEtag"]

/-- genia.py lines 47-48: rewrite a surface form of two backticks or two
single quotes to a single double quote before the offset search.  (The
source uses two successive `if` statements; they are equivalent to this
if/else chain because the first rewrite's result `"` is not `''`.) -/
def cleanWord (w : List Char) : List Char :=
  if w = [bquote, bquote] then [dquote]
  else if w = [squote, squote] then [dquote]
  else w

/-- One token record as returned by `process`: the dict
`dict(zip(TAGS, line.split('\t')))` (so a line with fewer than five fields
yields fewer entries and extra fields are dropped by `zip`), plus the
`start`/`end` offsets added at genia.py lines 52-53. -/
structure Token where
  entries : List (String × List Char)
  start : Nat
  end_ : Nat
  deriving DecidableEq, Repr

/-- genia.py lines 40-56, the read loop of `GeniaTagger.process`.  `proc` is
`proc_text`, `range_start` the search cursor, and the third argument the
remaining stdout lines (an exhausted list models end-of-stream, where
`readline()` returns `''`).  A line that is empty after `rstrip` — whether a
genuine blank-line sentinel or end-of-stream — ends the loop.  `token['word']`
is a dict lookup (`KeyError` if absent, which cannot happen since `split`
always yields at least one field); a failed search is `None.span()`, i.e. an
`AttributeError`. -/
def processLines (proc : List Char) : Nat → List (List Char) → Except PyErr (List Token)
  | _, [] => .ok []
  | range_start, raw :: rest =>
    if rstrip raw = [] then .ok []
    else
      match List.lookup "word" (TAGS.zip (splitTab (rstrip raw))) with
      | none => .error .keyError
      | some word =>
        match findOffsets proc (cleanWord word) range_start with
        | none => .error .attributeError
        | some (s, e) =>
          match processLines proc e rest with
          | .error err => .error err
          | .ok toks =>
            .ok ({ entries := TAGS.zip (splitTab (rstrip raw)),
                   start := s, end_ := e } :: toks)

/-- genia.py lines 33-57, `GeniaTagger.process(text)`: strip newlines, send
`proc_text + '\n'`, then run the read loop from cursor 0 against the lines
the tagger writes back. -/
def GeniaTagger.process (text : List Char) (stream : List (List Char)) :
    Except PyErr (List Token) :=
  processLines (procText text) 0 stream

/-- The cursor discipline of the read loop, as a predicate on a token list:
starting from search position `pos`, every token starts at or after the
previous token's end (the window `proc_text[range_start:]` begins where the
previous token ended), and each span is well-ordered. -/
def chainFrom (pos : Nat) : List Token → Prop
  | [] => True
  | t :: ts => pos ≤ t.start ∧ t.start ≤ t.end_ ∧ chainFrom t.end_ ts

instance chainFrom.dec : (pos : Nat) → (ts : List Token) → Decidable (chainFrom pos ts)
  | _, [] => isTrue trivial
  | pos, t :: ts =>
    have : Decidable (chainFrom t.end_ ts) := chainFrom.dec t.end_ ts
    inferInstanceAs (Decidable (pos ≤ t.start ∧ t.start ≤ t.end_ ∧ chainFrom t.end_ ts))

/-- Re-concatenation of the token spans' slices of `t` with the original
inter-token gap substrings preserved: the gap from the current position to
the next token's start, then that token's slice, and after the last token
the trailing gap up to the end of the text. -/
def reconstruct (t : List Char) : Nat → List Token → List Char
  | pos, [] => pySlice t pos t.length
  | pos, tok :: toks =>
    pySlice t pos tok.start ++ (pySlice t tok.start tok.end_ ++ reconstruct t tok.end_ toks)

/-! ## The `usim.py` data model (the parts the claims concern) -/

/-- usim.py lines 149-155: the attributes `Sentence.__init__` stores that the
claims need (`context` is out of scope; `lemma` is spelled `lemma_` because
`lemma` is a Lean keyword). -/
structure SentenceObj where
  id : List Char
  head : List Char
  lemma_ : List Char
  tail : List Char
  deriving DecidableEq, Repr

/-- usim.py lines 166-168: the `headword` property, `lemma.split('.')[0]`. -/
def headwordOf (lem : List Char) : List Char := (splitOn1 '.' lem).headD []

/-- usim.py lines 163-164: `str(sentence)` is `head + headword + tail`. -/
def strSentence (s : SentenceObj) : List Char :=
  s.head ++ headwordOf s.lemma_ ++ s.tail

/-- usim.py lines 42-53 and 170-176.  The module-global `tagger` is `None`
when the GENIA tagger is unavailable; an available tagger wraps one external
process, modelled by its response function (the stdout lines it emits for
the submitted text).  `pos_tags` raises `ValueError` when `tagger is None`
— before reaching the cache or `tagger.process` — and otherwise tags
`str(self)` through the `tag_cache` dict keyed by sentence id. -/
def posTags (tagger : Option (List Char → List (List Char)))
    (tag_cache : List (List Char × List Token)) (s : SentenceObj) :
    Except PyErr (List Token × List (List Char × List Token)) :=
  match tagger with
  | none => .error .valueError
  | some genia =>
    match List.lookup s.id tag_cache with
    | some toks => .ok (toks, tag_cache)
    | none =>
      match GeniaTagger.process (strSentence s) (genia (strSentence s)) with
      | .error e => .error e
      | .ok toks => .ok (toks, (s.id, toks) :: tag_cache)

/-- usim.py lines 118-122: the instance attributes `Lemma.__init__` stores —
`lemma`, `collection`, `sentences`, `spairs`; note `name` is not among them. -/
def Lemma_instance_attrs : List String := ["lemma", "collection", "sentences", "spairs"]

/-- The attributes defined on the `Lemma` class itself (usim.py lines
115-146: the `pos_map` class attribute, the `headword` and `POS` properties
and the two methods), which Python attribute lookup consults after the
instance dict. -/
def Lemma_class_attrs : List String :=
  ["pos_map", "headword", "POS", "add_sentence", "add_judgment"]

/-- Python attribute lookup on a `Lemma` instance: the instance dict, then
the class; a miss raises `AttributeError`. -/
def Lemma_getattr (name : String) : Except PyErr Unit :=
  if name ∈ Lemma_instance_attrs ∨ name ∈ Lemma_class_attrs then .ok ()
  else .error .attributeError

/-- usim.py lines 127-128: `Lemma.__hash__` evaluates `hash(self.name)`; the
attribute access `self.name` is performed first, and `hash` is applied to
its result. -/
def Lemma_hash : Except PyErr Unit := (Lemma_getattr "name").map (fun _ => ())

/-- usim.py lines 55-72: the `Collection` attribute the claims need, the
`sentences` dict mapping sentence id to `Sentence`. -/
structure CollectionObj where
  sentences : List (List Char × SentenceObj)
  deriving DecidableEq, Repr

/-- The record a non-raising `SPair.__init__` produces (usim.py lines
228-229 set `self.id1`/`self.id2`; `judgments` starts empty and does not
matter to the claims). -/
structure SPairObj where
  id1 : List Char
  id2 : List Char
  deriving DecidableEq, Repr

/-- usim.py lines 238-240, the `SPair.lemma` property:
`self.collection.sentences[self.id1].lemma` (a `KeyError` when the id is
absent). -/
def SPair_lemma (c : CollectionObj) (p : SPairObj) : Except PyErr (List Char) :=
  match List.lookup p.id1 c.sentences with
  | none => .error .keyError
  | some s => .ok s.lemma_

/-- usim.py lines 223-233, `SPair.__init__`: look up both sentences (a
`KeyError` when an id is absent); raise `ValueError` when their lemmas
differ; then, when a reference `lemma` is supplied, raise `ValueError` when
the `self.lemma` property differs from it. -/
def SPair_init (c : CollectionObj) (id1 id2 : List Char) (lem : Option (List Char)) :
    Except PyErr SPairObj :=
  match List.lookup id1 c.sentences with
  | none => .error .keyError
  | some s1 =>
    match List.lookup id2 c.sentences with
    | none => .error .keyError
    | some s2 =>
      if s1.lemma_ ≠ s2.lemma_ then .error .valueError
      else
        match lem with
        | none => .ok { id1 := id1, id2 := id2 }
        | some lm =>
          match SPair_lemma c { id1 := id1, id2 := id2 } with
          | .error e => .error e
          | .ok v => if v ≠ lm then .error .valueError else .ok { id1 := id1, id2 := id2 }

/-- usim.py lines 246-248, the `s1` accessor. -/
def SPair_s1 (c : CollectionObj) (p : SPairObj) : Option SentenceObj :=
  List.lookup p.id1 c.sentences

/-- usim.py lines 250-252, the `s2` accessor. -/
def SPair_s2 (c : CollectionObj) (p : SPairObj) : Option SentenceObj :=
  List.lookup p.id2 c.sentences

/-! ## Concrete example data used by the closed instances -/

/-- A sentence containing the same word twice. -/
def exText : List Char := "a b a".toList

/-- A well-formed tagger response for `exText`: one five-field line per
token, the response ending at end-of-stream. -/
def exStream : List (List Char) :=
  ["a\ta\tDT\tB-NP\tO".toList, "b\tb\tNN\tB-NP\tO".toList, "a\ta\tDT\tB-NP\tO".toList]

/-- The token list `process` returns on the example. -/
def exToks : List Token := (GeniaTagger.process exText exStream).toOption.getD []

/-- A text containing real double-quote characters. -/
def exQText : List Char := "say \"hi\"".toList

/-- A tagger response line whose surface field is the two-backtick rewrite
the GENIA tagger emits for an opening quote. -/
def exQLine : List Char := "``\t``\t``\tO\tO".toList

/-- The token produced for `exQLine` against `exQText`. -/
def exQTok : Token :=
  { entries := TAGS.zip (splitTab exQLine), start := 4, end_ := 5 }

/-- Two sentences sharing a lemma, for the `SPair` example. -/
def exS1 : SentenceObj :=
  { id := "s1".toList, head := [], lemma_ := "bright.a".toList, tail := [] }

/-- Second example sentence. -/
def exS2 : SentenceObj :=
  { id := "s2".toList, head := [], lemma_ := "bright.a".toList, tail := [] }

/-- A collection holding the two example sentences. -/
def exColl : CollectionObj :=
  { sentences := [("s1".toList, exS1), ("s2".toList, exS2)] }

/-! ## Basic facts about the search -/

theorem findSub_spec {tok w : List Char} {i : Nat} (h : findSub tok w = some i) :
    i + tok.length ≤ w.length ∧ (w.drop i).take tok.length = tok := by
  induction w generalizing i with
  | nil =>
    simp only [findSub] at h
    split at h
    · rename_i htok
      subst htok
      cases h
      exact ⟨by simp, by simp⟩
    · cases h
  | cons c rest ih =>
    simp only [findSub] at h
    split at h
    · rename_i heq
      cases h
      have hl := congrArg List.length heq
      rw [List.length_take] at hl
      refine ⟨?_, by simpa using heq.symm⟩
      have hc : (c :: rest).length = rest.length + 1 := by simp
      omega
    · rename_i hne
      rcases Option.map_eq_some'.mp h with ⟨j, hj, rfl⟩
      rcases ih hj with ⟨hlen, hsl⟩
      refine ⟨?_, ?_⟩
      · have hc : (c :: rest).length = rest.length + 1 := by simp
        omega
      · simpa [List.drop_succ_cons] using hsl

/-- Helper: the absolute-offset form of `findSub_spec` for `findOffsets`:
the reported span starts at or after the cursor, has the token's length,
and slices out exactly the token. -/
theorem findOffsets_spec {proc w : List Char} {cursor s e : Nat}
    (h : findOffsets proc w cursor = some (s, e)) :
    cursor ≤ s ∧ e = s + w.length ∧ pySlice proc s e = w := by
  unfold findOffsets at h
  rcases hfs : findSub w (proc.drop cursor) with _ | i
  · rw [hfs] at h; cases h
  · rw [hfs] at h
    cases h
    rcases findSub_spec hfs with ⟨hlen, hsl⟩
    refine ⟨Nat.le_add_right _ _, rfl, ?_⟩
    have h1 : pySlice proc (cursor + i) (cursor + i + w.length)
        = (proc.drop (cursor + i)).take w.length := by
      unfold pySlice
      rw [List.drop_take]
      congr 1
      omega
    rw [h1, ← List.drop_drop]
    exact hsl

/-- Helper: when the cursor is within the text, the reported end offset stays
within the text. -/
theorem findOffsets_le {proc w : List Char} {cursor s e : Nat}
    (hc : cursor ≤ proc.length) (h : findOffsets proc w cursor = some (s, e)) :
    e ≤ proc.length := by
  unfold findOffsets at h
  rcases hfs : findSub w (proc.drop cursor) with _ | i
  · rw [hfs] at h; cases h
  · rw [hfs] at h
    cases h
    rcases findSub_spec hfs with ⟨hlen, -⟩
    have hdrop : (proc.drop cursor).length = proc.length - cursor := by
      simp [List.length_drop]
    omega

/-! ## Structural facts about line parsing -/

theorem splitOn1_ne_nil (sep : Char) (l : List Char) : splitOn1 sep l ≠ [] := by
  cases l with
  | nil => simp [splitOn1]
  | cons c rest =>
    simp only [splitOn1]
    split
    · simp
    · split <;> simp

theorem splitTab_ne_nil (l : List Char) : splitTab l ≠ [] :=
  splitOn1_ne_nil '\t' l

/-- `dict(zip(TAGS, fields))['word']` is the first field (the head of
`TAGS` is `"word"`). -/
theorem lookup_word_zip (fields : List (List Char)) (h : fields ≠ []) :
    List.lookup "word" (TAGS.zip fields) = some (fields.headD []) := by
  cases fields with
  | nil => exact absurd rfl h
  | cons f fs => simp [TAGS, List.lookup]

theorem cleanWord_ne_nil {w : List Char} (h : w ≠ []) : cleanWord w ≠ [] := by
  unfold cleanWord
  split
  · simp
  · split
    · simp
    · exact h

/-! ## The cursor-chain invariant of the read loop -/

theorem chainFrom_le {pos : Nat} {ts : List Token} (h : chainFrom pos ts) :
    ∀ t ∈ ts, pos ≤ t.start := by
  induction ts generalizing pos with
  | nil => intro t ht; cases ht
  | cons a l ih =>
    rcases h with ⟨h1, h2, h3⟩
    intro t ht
    rcases List.mem_cons.mp ht with rfl | ht'
    · exact h1
    · exact le_trans (le_trans h1 h2) (ih h3 t ht')

theorem chainFrom_pairwise {pos : Nat} {ts : List Token} (h : chainFrom pos ts) :
    List.Pairwise (fun a b => a.end_ ≤ b.start) ts := by
  induction ts generalizing pos with
  | nil => exact List.Pairwise.nil
  | cons a l ih =>
    rcases h with ⟨h1, h2, h3⟩
    exact List.Pairwise.cons (fun b hb => chainFrom_le h3 b hb) (ih h3)

/-- The central invariant of genia.py's read loop: on a successful return
from cursor `rs ≤ len(proc)`, the tokens form a cursor chain from `rs`, all
spans end within `proc`, and if every non-sentinel response line has a
non-empty first field then every span is non-degenerate. -/
theorem processLines_invariant {proc : List Char} {rs : Nat}
    {stream : List (List Char)} {toks : List Token}
    (hrs : rs ≤ proc.length) (h : processLines proc rs stream = .ok toks) :
    chainFrom rs toks ∧ (∀ t ∈ toks, t.end_ ≤ proc.length) ∧
      ((∀ l ∈ stream, rstrip l = [] ∨ (splitTab (rstrip l)).headD [] ≠ []) →
        ∀ t ∈ toks, t.start < t.end_) := by
  induction stream generalizing rs toks with
  | nil =>
    simp only [processLines] at h
    cases h
    exact ⟨trivial, by simp, by simp⟩
  | cons raw rest ih =>
    simp only [processLines] at h
    by_cases hb : rstrip raw = []
    · rw [if_pos hb] at h
      cases h
      exact ⟨trivial, by simp, by simp⟩
    · rw [if_neg hb] at h
      split at h
      · cases h
      · rename_i word hlu
        split at h
        · cases h
        · rename_i s e hfo
          split at h
          · cases h
          · rename_i toks' hrec
            cases h
            rcases findOffsets_spec hfo with ⟨hcs, hee, hsl⟩
            have hle : e ≤ proc.length := findOffsets_le hrs hfo
            rcases ih hle hrec with ⟨hchain, hbound, hpos⟩
            refine ⟨⟨hcs, show s ≤ e by omega, hchain⟩, ?_, ?_⟩
            · intro t ht
              rcases List.mem_cons.mp ht with rfl | ht'
              · exact hle
              · exact hbound t ht'
            · intro hall t ht
              have hw : word ≠ [] := by
                rcases hall raw (List.mem_cons_self raw rest) with hcontr | hhd
                · exact absurd hcontr hb
                · rw [lookup_word_zip _ (splitTab_ne_nil _)] at hlu
                  cases hlu
                  exact hhd
              have hcwn : cleanWord word ≠ [] := cleanWord_ne_nil hw
              have hcw : 0 < (cleanWord word).length :=
                List.length_pos.mpr hcwn
              rcases List.mem_cons.mp ht with rfl | ht'
              · show s < e
                omega
              · exact hpos (fun l hl => hall l (List.mem_cons_of_mem _ hl)) t ht'

theorem chainFrom_start_le_end {pos : Nat} {ts : List Token} (h : chainFrom pos ts) :
    ∀ t ∈ ts, t.start ≤ t.end_ := by
  induction ts generalizing pos with
  | nil => intro t ht; cases ht
  | cons a l ih =>
    rcases h with ⟨h1, h2, h3⟩
    intro t ht
    rcases List.mem_cons.mp ht with rfl | ht'
    · exact h2
    · exact ih h3 t ht'

/-! ## Slice concatenation -/

theorem pySlice_append_drop {t : List Char} {a b : Nat} (hab : a ≤ b) :
    pySlice t a b ++ t.drop b = t.drop a := by
  unfold pySlice
  rw [List.drop_take]
  have h1 : t.drop b = (t.drop a).drop (b - a) := by
    rw [List.drop_drop]
    congr 1
    omega
  rw [h1, List.take_append_drop]

theorem reconstruct_eq_drop {t : List Char} {pos : Nat} {toks : List Token}
    (hchain : chainFrom pos toks)
    (hbound : ∀ tok ∈ toks, tok.end_ ≤ t.length) :
    reconstruct t pos toks = t.drop pos := by
  induction toks generalizing pos with
  | nil =>
    simp only [reconstruct]
    unfold pySlice
    rw [List.take_length]
  | cons tok toks ih =>
    rcases hchain with ⟨h1, h2, h3⟩
    rw [reconstruct, ih h3 (fun x hx => hbound x (List.mem_cons_of_mem _ hx)),
        pySlice_append_drop h2, pySlice_append_drop h1]

/-! ## Newline stripping -/

theorem RE_NEWLINE_sub_no_newline (text : List Char) :
    ∀ c ∈ RE_NEWLINE_sub text, c ≠ '\n' := by
  induction text with
  | nil => intro c hc; cases hc
  | cons a rest ih =>
    intro c hc
    simp only [RE_NEWLINE_sub] at hc
    split at hc
    · exact ih c hc
    · rename_i ha
      rcases List.mem_cons.mp hc with rfl | hc'
      · exact ha
      · exact ih c hc'

theorem RE_NEWLINE_sub_eq_self {text : List Char} (h : ∀ c ∈ text, c ≠ '\n') :
    RE_NEWLINE_sub text = text := by
  induction text with
  | nil => rfl
  | cons a rest ih =>
    simp only [RE_NEWLINE_sub]
    rw [if_neg (h a (List.mem_cons_self _ _)),
        ih (fun x hx => h x (List.mem_cons_of_mem _ hx))]

/-! ## The claims -/

/-- C1: the offset search genia.py performs for each token (lines 51-53 —
`re.search(re.escape(word), proc_text[range_start:])`, with the relative
span translated by `range_start`) satisfies the OffsetReconstructor
contract: when a match is found it returns `(start, end)` with
`start >= cursor`, `end = start + len(token)`, and
`proc_text[start:end] == token` exactly; the match is literal because the
token is escaped before matching (`findSub` is literal substring search). -/
theorem C1_offset_search_contract (text token : List Char) (cursor s e : Nat)
    (h : findOffsets text token cursor = some (s, e)) :
    cursor ≤ s ∧ e = s + token.length ∧ pySlice text s e = token :=
  findOffsets_spec h

theorem C1_offset_search_contract_witness :
    2 ≤ 4 ∧ 7 = 4 + ("cat".toList).length ∧
      pySlice ("the cat".toList) 4 7 = "cat".toList :=
  C1_offset_search_contract ("the cat".toList) ("cat".toList) 2 4 7 (by decide)

/-- C2 counterexample: the claim fails as stated.  A five-field response
line whose `word` field is empty (the line starts with a tab) produces a
token with `start = end`: `process("ab")` against the single line
`"\tw\tx\ty\tz"` returns one token with span `(0, 0)`, so not every
returned token satisfies `start < end`. -/
theorem C2_counterexample :
    (GeniaTagger.process ("ab".toList) [("\tw\tx\ty\tz".toList)]).map
      (fun toks => toks.all (fun t => decide (t.start < t.end_))) = .ok false := rfl

/-- C2 (amended): for every token sequence `process(text)` returns, provided
every response line is blank or has a non-empty first (`word`) field, every
token satisfies `0 ≤ start < end ≤ len(proc_text)`, and the spans are
pairwise non-overlapping in non-decreasing order (`a.end ≤ b.start` for any
earlier token `a` and later token `b` — each token's search window begins
where the previous token ended); in particular two occurrences of the same
surface word receive distinct, correctly ordered spans.  Without the
non-empty-field proviso, `start ≤ end` and the ordering facts still hold,
but a degenerate `start = end` span is possible (see the counterexample). -/
theorem C2_span_invariants (text : List Char) (stream : List (List Char)) (toks : List Token)
    (hok : GeniaTagger.process text stream = .ok toks)
    (hne : ∀ l ∈ stream, rstrip l = [] ∨ (splitTab (rstrip l)).headD [] ≠ []) :
    (∀ t ∈ toks, t.start < t.end_ ∧ t.end_ ≤ (procText text).length) ∧
      List.Pairwise (fun a b => a.end_ ≤ b.start) toks := by
  rcases processLines_invariant (Nat.zero_le _) hok with ⟨hchain, hbound, hpos⟩
  exact ⟨fun t ht => ⟨hpos hne t ht, hbound t ht⟩, chainFrom_pairwise hchain⟩

theorem C2_span_invariants_witness :
    (∀ t ∈ exToks, t.start < t.end_ ∧ t.end_ ≤ (procText exText).length) ∧
      List.Pairwise (fun a b => a.end_ ≤ b.start) exToks :=
  C2_span_invariants exText exStream exToks rfl (by decide)

/-- C3: for an input text with no embedded newlines (and taking the
tagger's emitted token lines as given), concatenating
`proc_text[t.start:t.end]` for every returned token in order, with the
original inter-token gap substrings of `proc_text` preserved between them
(and around them), reproduces the submitted newline-stripped text exactly —
which under the no-newline hypothesis is the original text itself. -/
theorem C3_gap_reconstruction (text : List Char) (stream : List (List Char))
    (toks : List Token)
    (hnl : ∀ c ∈ text, c ≠ '\n')
    (hok : GeniaTagger.process text stream = .ok toks) :
    reconstruct (procText text) 0 toks = procText text ∧ procText text = text := by
  rcases processLines_invariant (Nat.zero_le _) hok with ⟨hchain, hbound, -⟩
  constructor
  · rw [reconstruct_eq_drop hchain hbound, List.drop_zero]
  · exact RE_NEWLINE_sub_eq_self hnl

theorem C3_gap_reconstruction_witness :
    reconstruct (procText exText) 0 exToks = procText exText ∧ procText exText = exText :=
  C3_gap_reconstruction exText exStream exToks (by decide) rfl

/-- C4 counterexample to the claim as stated: no `AlignmentError` class
exists anywhere in the code.  When a token's normalized surface form does
not occur in `proc_text[cursor:]`, `re.search` returns `None` and the
attribute access `.span()` on it raises an (incidental) `AttributeError` —
the error raised is `AttributeError`, the only failure the code can produce
on this path, not a named `AlignmentError`. -/
theorem C4_counterexample :
    GeniaTagger.process ("abc".toList) ["zzz\tz\tz\tz\tz".toList] =
      .error .attributeError := rfl

/-- C4 (amended): for every token whose normalized surface form does not
occur anywhere in `proc_text[range_start:]`, `process` fails — it raises the
(unnamed, incidental) `AttributeError` coming from calling `.span()` on the
`None` that `re.search` returned — so the failure does surface to the
caller rather than being masked by an approximate or unverified offset, but
under `AttributeError`, not a dedicated `AlignmentError`. -/
theorem C4_alignment_attribute_error (proc : List Char) (rs : Nat) (raw : List Char)
    (rest : List (List Char)) (word : List Char)
    (hb : rstrip raw ≠ [])
    (hlu : List.lookup "word" (TAGS.zip (splitTab (rstrip raw))) = some word)
    (hnf : findSub (cleanWord word) (proc.drop rs) = none) :
    processLines proc rs (raw :: rest) = .error .attributeError := by
  have hfo : findOffsets proc (cleanWord word) rs = none := by
    unfold findOffsets
    rw [hnf]
  simp only [processLines, if_neg hb, hlu, hfo]

theorem C4_alignment_attribute_error_witness :
    processLines ("abc".toList) 0 ["zzz\tz\tz\tz\tz".toList] = .error .attributeError :=
  C4_alignment_attribute_error ("abc".toList) 0 ("zzz\tz\tz\tz\tz".toList) []
    ("zzz".toList) (by decide) (by decide) (by decide)

/-- C5 counterexample to the claim as stated: no `ProtocolError` class
exists anywhere in the code and neither condition is detected.  Here the
response stream reaches end-of-stream with no terminating blank line, yet
`process` returns an ordinary token list (`readline()` returns `''` at
end-of-stream, which ends the `while line` loop exactly as the sentinel
does), rather than raising anything. -/
theorem C5_counterexample :
    GeniaTagger.process ("ab".toList) ["a\ta\tDT\tB-NP\tO".toList] =
      .ok [{ entries := [("word", "a".toList), ("base", "a".toList),
                         ("POStag", "DT".toList), ("chunktag", "B-NP".toList),
                         ("NEtag", "O".toList)],
             start := 0, end_ := 1 }] := rfl

/-- C5 (amended): `process` performs no protocol validation.  (1) An
end-of-stream before the blank-line sentinel is treated exactly like the
sentinel: appending the blank line the protocol promises never changes the
result, so a truncated stream silently yields the tokens collected so far.
(2) A line with a field count other than five is processed anyway —
`dict(zip(TAGS, fields))` simply drops extra fields and omits missing keys —
as the two-field line `"a\tb"` shows: it yields a token whose dict has only
`word` and `base` entries, with no error raised. -/
theorem C5_no_protocol_validation :
    (∀ (proc : List Char) (rs : Nat) (stream : List (List Char)),
        processLines proc rs (stream ++ [[]]) = processLines proc rs stream) ∧
      GeniaTagger.process ("ab".toList) ["a\tb".toList] =
        .ok [{ entries := [("word", "a".toList), ("base", "b".toList)],
               start := 0, end_ := 1 }] := by
  constructor
  · intro proc rs stream
    induction stream generalizing rs with
    | nil => rfl
    | cons raw rest ih =>
      show processLines proc rs (raw :: (rest ++ [[]])) = processLines proc rs (raw :: rest)
      simp only [processLines]
      by_cases hb : rstrip raw = []
      · simp only [if_pos hb]
      · simp only [if_neg hb]
        rcases List.lookup "word" (TAGS.zip (splitTab (rstrip raw))) with _ | word
        · rfl
        · dsimp only
          rcases findOffsets proc (cleanWord word) rs with _ | ⟨s, e⟩
          · rfl
          · dsimp only
            rw [ih e]
  · rfl

/-- C6: for every tagger output line whose surface (`word`) field is the
two-character sequence backtick-backtick or single-quote single-quote,
`process` normalizes that surface to the single double-quote character
before the offset search (genia.py lines 47-48), so the resulting span has
length one and slices out exactly the double-quote character actually
present in the submitted text, at or after the current cursor. -/
theorem C6_quote_normalization (proc : List Char) (rs : Nat) (raw : List Char)
    (rest : List (List Char)) (tok : Token) (toks : List Token)
    (hword : List.lookup "word" (TAGS.zip (splitTab (rstrip raw))) = some [bquote, bquote] ∨
      List.lookup "word" (TAGS.zip (splitTab (rstrip raw))) = some [squote, squote])
    (hok : processLines proc rs (raw :: rest) = .ok (tok :: toks)) :
    tok.end_ = tok.start + 1 ∧ pySlice proc tok.start tok.end_ = [dquote] ∧
      rs ≤ tok.start := by
  simp only [processLines] at hok
  by_cases hb : rstrip raw = []
  · rw [if_pos hb] at hok
    cases hok
  · rw [if_neg hb] at hok
    split at hok
    · cases hok
    · rename_i word hlu
      split at hok
      · cases hok
      · rename_i s e hfo
        split at hok
        · cases hok
        · rename_i toks' hrec
          cases hok
          have hcw : cleanWord word = [dquote] := by
            rcases hword with hw | hw <;> (rw [hlu] at hw; cases hw; decide)
          rw [hcw] at hfo
          rcases findOffsets_spec hfo with ⟨hcs, hee, hsl⟩
          refine ⟨?_, ?_, hcs⟩
          · show e = s + 1
            simpa using hee
          · show pySlice proc s e = [dquote]
            exact hsl

theorem C6_quote_normalization_witness :
    exQTok.end_ = exQTok.start + 1 ∧
      pySlice exQText exQTok.start exQTok.end_ = [dquote] ∧ 0 ≤ exQTok.start :=
  C6_quote_normalization exQText 0 exQLine [] exQTok [] (Or.inl (by decide)) rfl

/-- C7: `process` first removes all newline characters from `text` to obtain
`proc_text` (so no newline remains in it), transmits `proc_text` followed by
exactly one newline (the transmitted string is `proc_text + '\n'`, which
contains exactly one `'\n'`), and every returned offset indexes into
`proc_text`: each span lies within `[0, len(proc_text)]`. -/
theorem C7_newline_normalization (text : List Char) (stream : List (List Char))
    (toks : List Token)
    (hok : GeniaTagger.process text stream = .ok toks) :
    (∀ c ∈ procText text, c ≠ '\n') ∧
      sentText text = procText text ++ ['\n'] ∧
      (sentText text).count '\n' = 1 ∧
      ∀ t ∈ toks, t.start ≤ t.end_ ∧ t.end_ ≤ (procText text).length := by
  rcases processLines_invariant (Nat.zero_le _) hok with ⟨hchain, hbound, -⟩
  refine ⟨RE_NEWLINE_sub_no_newline text, rfl, ?_, ?_⟩
  · have h0 : (procText text).count '\n' = 0 :=
      List.count_eq_zero.mpr (fun hmem => RE_NEWLINE_sub_no_newline text _ hmem rfl)
    rw [sentText, List.count_append, h0]
    rfl
  · exact fun t ht => ⟨chainFrom_start_le_end hchain t ht, hbound t ht⟩

theorem C7_newline_normalization_witness :
    (∀ c ∈ procText exText, c ≠ '\n') ∧
      sentText exText = procText exText ++ ['\n'] ∧
      (sentText exText).count '\n' = 1 ∧
      ∀ t ∈ exToks, t.start ≤ t.end_ ∧ t.end_ ≤ (procText exText).length :=
  C7_newline_normalization exText exStream exToks rfl

/-- C8: accessing `pos_tags` when no tagger is configured (`tagger is None`,
usim.py lines 171-173) fails cleanly by raising the named error
`ValueError`, for every sentence and cache state — the `None` check comes
first, before the cache is consulted or `tagger.process` (the tagging core)
could be invoked. -/
theorem C8_pos_tags_capability (tag_cache : List (List Char × List Token))
    (s : SentenceObj) :
    posTags none tag_cache s = .error .valueError := rfl

/-- C9: calling `hash` on a `Lemma` object raises `AttributeError`:
`Lemma.__hash__` (usim.py lines 127-128) reads `self.name`, but
`Lemma.__init__` (lines 118-122) stores the name only under `self.lemma`,
and no attribute `name` exists on the instance or the class — so hashing
always fails, and consequently no `Lemma` can be used as a dict key or set
member (both require a working `__hash__`). -/
theorem C9_lemma_hash_attribute_error : Lemma_hash = .error .attributeError := rfl

/-- C10: `SPair.__init__` (usim.py lines 223-233) raises `ValueError` when
the two referenced sentences have different lemmas, raises `ValueError` when
an explicit reference lemma differing from the sentences' lemma is supplied,
and every successfully constructed `SPair` has `s1.lemma == s2.lemma`. -/
theorem C10_spair_lemma_consistency (c : CollectionObj) (id1 id2 : List Char)
    (ref : Option (List Char)) (s1 s2 : SentenceObj)
    (h1 : List.lookup id1 c.sentences = some s1)
    (h2 : List.lookup id2 c.sentences = some s2) :
    (s1.lemma_ ≠ s2.lemma_ → SPair_init c id1 id2 ref = .error .valueError) ∧
      (∀ lm, ref = some lm → lm ≠ s1.lemma_ →
        SPair_init c id1 id2 ref = .error .valueError) ∧
      ∀ p, SPair_init c id1 id2 ref = .ok p →
        ∃ t1 t2, SPair_s1 c p = some t1 ∧ SPair_s2 c p = some t2 ∧
          t1.lemma_ = t2.lemma_ := by
  have hsl : SPair_lemma c { id1 := id1, id2 := id2 } = .ok s1.lemma_ := by
    simp only [SPair_lemma, h1]
  refine ⟨?_, ?_, ?_⟩
  · intro hne
    simp only [SPair_init, h1, h2, if_pos hne]
  · intro lm href hne
    subst href
    simp only [SPair_init, h1, h2, hsl]
    by_cases heq : s1.lemma_ = s2.lemma_
    · rw [if_neg (by simp [heq])]
      rw [if_pos (Ne.symm hne)]
    · rw [if_pos heq]
  · intro p hp
    by_cases heq : s1.lemma_ = s2.lemma_
    · simp only [SPair_init, h1, h2, hsl, if_neg (by simp [heq] : ¬s1.lemma_ ≠ s2.lemma_)] at hp
      have hpeq : p = { id1 := id1, id2 := id2 } := by
        rcases ref with _ | lm
        · cases hp
          rfl
        · dsimp only at hp
          split at hp
          · cases hp
          · cases hp
            rfl
      subst hpeq
      exact ⟨s1, s2, h1, h2, heq⟩
    · simp only [SPair_init, h1, h2, if_pos heq] at hp
      cases hp

theorem C10_spair_lemma_consistency_witness :
    (exS1.lemma_ ≠ exS2.lemma_ →
      SPair_init exColl ("s1".toList) ("s2".toList) none = .error .valueError) ∧
      (∀ lm, (none : Option (List Char)) = some lm → lm ≠ exS1.lemma_ →
        SPair_init exColl ("s1".toList) ("s2".toList) none = .error .valueError) ∧
      ∀ p, SPair_init exColl ("s1".toList) ("s2".toList) none = .ok p →
        ∃ t1 t2, SPair_s1 exColl p = some t1 ∧ SPair_s2 exColl p = some t2 ∧
          t1.lemma_ = t2.lemma_ :=
  C10_spair_lemma_consistency exColl ("s1".toList) ("s2".toList) none exS1 exS2
    (by decide) (by decide)
